import Mathlib

/-!
Shallow embedding of the bounded LRU model-session cache of src/app.py
(the bgaws repository): the fixed model catalog KNOWN_MODELS, the
get_session get-or-create operation over an ordered association list
mirroring a Python OrderedDict, the startup preloader
preload_all_models, and the models endpoint. Environment-configurable
values (MAX_SESSIONS, DEFAULT_MODEL, PRELOAD_MODELS) become parameters;
the catalog is the fixed list from the source. The resource factory
(rembg new_session) is an external collaborator modelled as a function
returning Option: some on success, none when it raises.
-/

namespace Bgaws

/-- KNOWN_MODELS from src/app.py: the fixed catalog of model names. -/
def KNOWN_MODELS : List String :=
  ["u2net", "u2netp", "u2net_human_seg", "u2net_cloth_seg", "silueta",
   "isnet-general-use", "isnet-anime", "sam", "birefnet-general",
   "birefnet-general-lite", "birefnet-portrait", "birefnet-dis",
   "birefnet-hrsod", "birefnet-cod", "birefnet-massive", "bria-rmbg"]

/-- Default value of the DEFAULT_MODEL environment option in src/app.py. -/
def DEFAULT_MODEL : String := "birefnet-general-lite"

/-- The session cache state: an association list ordered like a Python
OrderedDict, least recently used first, most recently used last. -/
abbrev Cache (H : Type) := List (String × H)

/-- The list of keys of the cache, in recency order. -/
def cacheKeys {H : Type} (c : Cache H) : List String :=
  c.map Prod.fst

/-- Dictionary lookup: the value stored under key k, if any. -/
def lookup {H : Type} (c : Cache H) (k : String) : Option H :=
  (c.find? (fun p => p.1 == k)).map Prod.snd

/-- Removal of the entry with key k (all entries carrying that key). -/
def eraseKey {H : Type} (c : Cache H) (k : String) : Cache H :=
  c.filter (fun p => p.1 != k)

/-- OrderedDict.move_to_end: reposition the entry for k at the
most-recently-used end, keeping its stored value. A key that is absent
leaves the dictionary unchanged (in the source the call only happens
for present keys). -/
def move_to_end {H : Type} (c : Cache H) (k : String) : Cache H :=
  match lookup c k with
  | none => c
  | some v => eraseKey c k ++ [(k, v)]

/-- Dictionary assignment d[k] = v: update in place when the key exists,
otherwise append at the most-recently-used end. -/
def dictInsert {H : Type} (c : Cache H) (k : String) (v : H) : Cache H :=
  if (lookup c k).isSome then
    c.map (fun p => if p.1 == k then (k, v) else p)
  else
    c ++ [(k, v)]

/-- The eviction sweep of get_session: while the cache holds more than
cap entries, pop the least-recently-used entry (the front). -/
def evictLoop {H : Type} (cap : Nat) : Cache H → Cache H
  | [] => []
  | x :: xs => if xs.length + 1 > cap then evictLoop cap xs else x :: xs

/-- The failures get_session can raise: the HTTP 400 for a name outside
the catalog, and a propagated factory exception from new_session. -/
inductive SessErr
  | invalidName
  | creationFailed
  deriving DecidableEq

/-- Result of one get_session call: the returned handle or error, the
cache state after the call, and how many factory calls were made. -/
structure SessResult (H : Type) where
  res : Except SessErr H
  cache : Cache H
  factoryCalls : Nat

/-- get_session from src/app.py: validate the name against KNOWN_MODELS,
return the cached handle after refreshing recency on a hit, otherwise
call the factory, insert the new handle at the most-recently-used end
and run the eviction sweep. cap is MAX_SESSIONS; factory is new_session. -/
def get_session {H : Type} (cap : Nat) (factory : String → Option H)
    (cache : Cache H) (model : String) : SessResult H :=
  if model ∈ KNOWN_MODELS then
    match lookup cache model with
    | some h => ⟨.ok h, move_to_end cache model, 0⟩
    | none =>
      match factory model with
      | some sess =>
        ⟨.ok sess, evictLoop cap (move_to_end (dictInsert cache model sess) model), 1⟩
      | none => ⟨.error .creationFailed, cache, 1⟩
  else
    ⟨.error .invalidName, cache, 0⟩

/-- One step of the preload loop: call get_session for one model,
swallow any failure, keep the cache state and add up factory calls. -/
def preloadStep {H : Type} (cap : Nat) (factory : String → Option H)
    (st : Cache H × Nat) (model : String) : Cache H × Nat :=
  ((get_session cap factory st.1 model).cache,
   st.2 + (get_session cap factory st.1 model).factoryCalls)

/-- preload_all_models from src/app.py: when the PRELOAD_MODELS flag is
the string 1, call get_session for every model in KNOWN_MODELS in
catalog order, continuing on failure, then re-issue get_session for the
configured default model, also swallowing its failure. Otherwise do
nothing. Returns the final cache and total factory call count. -/
def preload_all_models {H : Type} (preloadFlag : String) (defaultModel : String)
    (cap : Nat) (factory : String → Option H) (cache : Cache H) : Cache H × Nat :=
  if preloadFlag = "1" then
    preloadStep cap factory
      (KNOWN_MODELS.foldl (preloadStep cap factory) (cache, 0)) defaultModel
  else
    (cache, 0)

/-- The models endpoint of src/app.py: unconditionally returns the
catalog together with the configured default model name. -/
def models (defaultModel : String) : List String × String :=
  (KNOWN_MODELS, defaultModel)

/-- A sequence of get_session calls starting from the empty cache,
keeping only the evolving cache state. -/
def runCalls {H : Type} (cap : Nat) (factory : String → Option H)
    (ms : List String) : Cache H :=
  ms.foldl (fun c m => (get_session cap factory c m).cache) []

/-- The entry for k is the most-recently-used one: it sits at the back
of the recency-ordered cache. -/
def isMRU {H : Type} (c : Cache H) (k : String) : Prop :=
  (c.getLast?).map Prod.fst = some k

/-! Basic lemmas about the dictionary operations. -/

theorem lookup_eq_none_iff {H : Type} (c : Cache H) (k : String) :
    lookup c k = none ↔ k ∉ cacheKeys c := by
  simp only [lookup, cacheKeys, Option.map_eq_none', List.find?_eq_none, List.mem_map]
  constructor
  · rintro h ⟨p, hp, rfl⟩
    exact h p hp (by simp)
  · intro h p hp hk
    exact h ⟨p, hp, beq_iff_eq.mp hk⟩

theorem mem_cacheKeys_of_lookup_eq_some {H : Type} {c : Cache H} {k : String} {v : H}
    (h : lookup c k = some v) : k ∈ cacheKeys c := by
  by_contra hk
  rw [← lookup_eq_none_iff] at hk
  rw [hk] at h
  exact Option.noConfusion h

theorem length_eraseKey_lt {H : Type} {c : Cache H} {k : String} {v : H}
    (h : lookup c k = some v) : (eraseKey c k).length < c.length := by
  obtain ⟨p, hfind⟩ : ∃ p, c.find? (fun q => q.1 == k) = some p := by
    simp only [lookup] at h
    rcases hf : c.find? (fun q => q.1 == k) with _ | p
    · rw [hf] at h; exact Option.noConfusion h
    · exact ⟨p, hf⟩
  have hmem : p ∈ c := List.mem_of_find?_eq_some hfind
  have hpk := List.find?_some hfind
  refine List.length_filter_lt_length_iff_exists.2 ⟨p, hmem, ?_⟩
  simp [bne, hpk]

theorem length_move_to_end_le {H : Type} (c : Cache H) (k : String) :
    (move_to_end c k).length ≤ c.length := by
  unfold move_to_end
  rcases h : lookup c k with _ | v
  · exact le_refl _
  · have := length_eraseKey_lt h
    simp only [List.length_append, List.length_cons, List.length_nil]
    omega

theorem evictLoop_eq_drop {H : Type} (cap : Nat) (c : Cache H) :
    evictLoop cap c = c.drop (c.length - cap) := by
  induction c with
  | nil => simp [evictLoop]
  | cons x xs ih =>
    unfold evictLoop
    by_cases h : xs.length + 1 > cap
    · rw [if_pos h, ih]
      have : (x :: xs).length - cap = (xs.length - cap) + 1 := by
        simp only [List.length_cons]; omega
      rw [this, List.drop_succ_cons]
    · rw [if_neg h]
      have : (x :: xs).length - cap = 0 := by
        simp only [List.length_cons]; omega
      rw [this, List.drop_zero]

theorem evictLoop_length_le {H : Type} (cap : Nat) (c : Cache H) :
    (evictLoop cap c).length ≤ cap := by
  rw [evictLoop_eq_drop, List.length_drop]
  omega

theorem get_session_cache_length {H : Type} (cap : Nat) (factory : String → Option H)
    (cache : Cache H) (m : String) (h : cache.length ≤ cap) :
    ((get_session cap factory cache m).cache).length ≤ cap := by
  unfold get_session
  split
  · rcases hl : lookup cache m with _ | v
    · rcases hf : factory m with _ | s
      · exact h
      · exact evictLoop_length_le cap _
    · exact le_trans (length_move_to_end_le cache m) h
  · exact h

theorem lookup_append_single_self {H : Type} {l : Cache H} {k : String} {v : H}
    (h : ∀ p ∈ l, (p.1 == k) = false) : lookup (l ++ [(k, v)]) k = some v := by
  have hnone : l.find? (fun q => q.1 == k) = none :=
    List.find?_eq_none.2 (by intro p hp; simp [h p hp])
  simp [lookup, List.find?_append, hnone, List.find?]

theorem eraseKey_keys_ne {H : Type} (c : Cache H) (k : String) :
    ∀ p ∈ eraseKey c k, (p.1 == k) = false := by
  intro p hp
  have := (List.mem_filter.1 hp).2
  simpa [bne] using this

theorem lookup_none_keys_ne {H : Type} {c : Cache H} {k : String}
    (h : lookup c k = none) : ∀ p ∈ c, (p.1 == k) = false := by
  intro p hp
  have hfind : c.find? (fun q => q.1 == k) = none := by
    simp only [lookup, Option.map_eq_none'] at h
    exact h
  have := List.find?_eq_none.1 hfind p hp
  simpa using this

theorem eraseKey_eq_self {H : Type} {c : Cache H} {k : String}
    (h : lookup c k = none) : eraseKey c k = c := by
  refine List.filter_eq_self.2 ?_
  intro p hp
  simp [bne, lookup_none_keys_ne h p hp]

theorem miss_insert_eq {H : Type} {c : Cache H} {m : String} (s : H)
    (h : lookup c m = none) :
    move_to_end (dictInsert c m s) m = c ++ [(m, s)] := by
  have hins : dictInsert c m s = c ++ [(m, s)] := by
    unfold dictInsert
    rw [h]
    simp
  unfold move_to_end
  rw [hins, lookup_append_single_self (lookup_none_keys_ne h)]
  unfold eraseKey
  rw [List.filter_append]
  have h1 : List.filter (fun p => p.1 != m) c = c := eraseKey_eq_self h
  have h2 : List.filter (fun p => p.1 != m) [(m, s)] = [] := by simp
  rw [h1, h2, List.append_nil]

theorem mem_cacheKeys_move_to_end {H : Type} {c : Cache H} {m : String} {v : H}
    (h : lookup c m = some v) :
    ∀ k, k ∈ cacheKeys (move_to_end c m) ↔ k ∈ cacheKeys c := by
  intro k
  unfold move_to_end
  rw [h]
  simp only [cacheKeys, eraseKey, List.map_append, List.mem_append, List.mem_map,
    List.mem_filter, List.mem_singleton]
  constructor
  · rintro (⟨p, ⟨hp, hne⟩, rfl⟩ | ⟨p, rfl, rfl⟩)
    · exact ⟨p, hp, rfl⟩
    · simpa [cacheKeys, List.mem_map] using mem_cacheKeys_of_lookup_eq_some h
  · rintro ⟨p, hp, rfl⟩
    by_cases hk : p.1 = m
    · exact Or.inr ⟨(m, v), rfl, hk.symm⟩
    · exact Or.inl ⟨p, ⟨hp, by simp [bne, hk]⟩, rfl⟩

theorem evictLoop_getLast? {H : Type} (cap : Nat) (c : Cache H)
    (h : evictLoop cap c ≠ []) : (evictLoop cap c).getLast? = c.getLast? := by
  rw [evictLoop_eq_drop] at h ⊢
  rcases Nat.lt_or_ge (c.length - cap) c.length with hlt | hge
  · rw [List.getLast?_drop, if_neg (by omega)]
  · exact absurd (List.drop_eq_nil_of_le hge) h

theorem get_session_keys {H : Type} (cap : Nat) (factory : String → Option H)
    (cache : Cache H) (m : String) :
    ∀ k ∈ cacheKeys (get_session cap factory cache m).cache,
      k ∈ cacheKeys cache ∨ (k = m ∧ m ∈ KNOWN_MODELS) := by
  intro k hk
  unfold get_session at hk
  by_cases hm : m ∈ KNOWN_MODELS
  · rw [if_pos hm] at hk
    rcases hl : lookup cache m with _ | v
    · rw [hl] at hk
      rcases hf : factory m with _ | s
      · rw [hf] at hk; exact Or.inl hk
      · rw [hf] at hk
        simp only at hk
        rw [miss_insert_eq s hl, evictLoop_eq_drop] at hk
        simp only [cacheKeys, List.mem_map] at hk
        obtain ⟨p, hp, rfl⟩ := hk
        have hp' : p ∈ cache ++ [(m, s)] := List.mem_of_mem_drop hp
        rcases List.mem_append.1 hp' with h1 | h2
        · exact Or.inl (List.mem_map.2 ⟨p, h1, rfl⟩)
        · simp only [List.mem_singleton] at h2
          subst h2
          exact Or.inr ⟨rfl, hm⟩
    · rw [hl] at hk
      simp only at hk
      exact Or.inl ((mem_cacheKeys_move_to_end hl k).1 hk)
  · rw [if_neg hm] at hk
    exact Or.inl hk

/-! Branch equations for get_session. -/

theorem get_session_not_known {H : Type} (cap : Nat) (factory : String → Option H)
    (cache : Cache H) (m : String) (hm : m ∉ KNOWN_MODELS) :
    get_session cap factory cache m = ⟨.error .invalidName, cache, 0⟩ := by
  unfold get_session
  rw [if_neg hm]

theorem get_session_hit {H : Type} (cap : Nat) (factory : String → Option H)
    (cache : Cache H) (m : String) (v : H) (hm : m ∈ KNOWN_MODELS)
    (hl : lookup cache m = some v) :
    get_session cap factory cache m = ⟨.ok v, move_to_end cache m, 0⟩ := by
  unfold get_session
  rw [if_pos hm, hl]

theorem get_session_miss_fail {H : Type} (cap : Nat) (factory : String → Option H)
    (cache : Cache H) (m : String) (hm : m ∈ KNOWN_MODELS)
    (hl : lookup cache m = none) (hf : factory m = none) :
    get_session cap factory cache m = ⟨.error .creationFailed, cache, 1⟩ := by
  unfold get_session
  rw [if_pos hm, hl, hf]

theorem get_session_miss_success {H : Type} (cap : Nat) (factory : String → Option H)
    (cache : Cache H) (m : String) (s : H) (hm : m ∈ KNOWN_MODELS)
    (hl : lookup cache m = none) (hf : factory m = some s) :
    get_session cap factory cache m = ⟨.ok s, evictLoop cap (cache ++ [(m, s)]), 1⟩ := by
  unfold get_session
  rw [if_pos hm, hl, hf]
  dsimp only
  rw [miss_insert_eq s hl]

theorem move_to_end_eq_of_lookup {H : Type} {c : Cache H} {k : String} {v : H}
    (h : lookup c k = some v) : move_to_end c k = eraseKey c k ++ [(k, v)] := by
  unfold move_to_end
  rw [h]

/-! Claim theorems. -/

/-- C1: for every sequence of get_session calls starting from the empty
cache, with Capacity (MAX_SESSIONS) a positive integer, the cache holds
at most Capacity entries after any call completes: the eviction loop at
the end of a successful miss enforces the bound, hits and failures do
not grow the cache. -/
theorem cache_capacity_invariant {H : Type} (cap : Nat) (factory : String → Option H)
    (ms : List String) (hcap : 0 < cap) : (runCalls cap factory ms).length ≤ cap := by
  have aux : ∀ (l : List String) (c : Cache H), c.length ≤ cap →
      (l.foldl (fun c m => (get_session cap factory c m).cache) c).length ≤ cap := by
    intro l
    induction l with
    | nil => intro c hc; exact hc
    | cons x xs ih =>
      intro c hc
      exact ih _ (get_session_cache_length cap factory c x hc)
  exact aux ms [] (by simp)

/-- Witness for C1 at Capacity 1 and a concrete two-call sequence. -/
theorem cache_capacity_invariant_witness :
    0 < 1 ∧ (runCalls 1 (fun n => some n) ["u2net", "sam"]).length ≤ 1 :=
  ⟨by decide, cache_capacity_invariant 1 (fun n => some n) ["u2net", "sam"] (by decide)⟩

/-- C2: the cache evicts in LRU order with access refresh. With
Capacity 2 and the catalog members u2net (A), u2netp (B), silueta (C),
the sequence A, B, A, C leaves exactly A and C resident: the third call
refreshed A, so B was the least-recently-used entry evicted when C was
inserted. -/
theorem lru_refresh_scenario :
    cacheKeys (runCalls 2 (fun n => some n) ["u2net", "u2netp", "u2net", "silueta"])
      = ["u2net", "silueta"] := by decide

/-- C3: a name outside KNOWN_MODELS makes get_session fail with the
invalid-name error, with the cache unchanged and zero factory calls,
for every cache state and every factory. -/
theorem invalid_name_rejected {H : Type} (cap : Nat) (factory : String → Option H)
    (cache : Cache H) (m : String) (hm : m ∉ KNOWN_MODELS) :
    get_session cap factory cache m = ⟨.error .invalidName, cache, 0⟩ :=
  get_session_not_known cap factory cache m hm

/-- Witness for C3 at the concrete unknown name nope. -/
theorem invalid_name_rejected_witness :
    "nope" ∉ KNOWN_MODELS ∧
      get_session 1 (fun _ => some "s") [("u2net", "h")] "nope"
        = ⟨.error .invalidName, [("u2net", "h")], 0⟩ :=
  ⟨by decide, invalid_name_rejected 1 (fun _ => some "s") [("u2net", "h")] "nope" (by decide)⟩

/-- C4: a cache hit never calls the factory: get_session returns the
stored handle with zero factory calls, the resulting cache is the old
one with the entry moved to the most-recently-used end, the set of
cached names is unchanged, and the accessed name is most-recently-used. -/
theorem cache_hit_no_factory {H : Type} (cap : Nat) (factory : String → Option H)
    (cache : Cache H) (m : String) (h : H) (hm : m ∈ KNOWN_MODELS)
    (hl : lookup cache m = some h) :
    get_session cap factory cache m = ⟨.ok h, move_to_end cache m, 0⟩ ∧
      cacheKeys (move_to_end cache m) ⊆ cacheKeys cache ∧
      cacheKeys cache ⊆ cacheKeys (move_to_end cache m) ∧
      isMRU (move_to_end cache m) m := by
  refine ⟨get_session_hit cap factory cache m h hm hl, ?_, ?_, ?_⟩
  · intro k hk
    exact (mem_cacheKeys_move_to_end hl k).1 hk
  · intro k hk
    exact (mem_cacheKeys_move_to_end hl k).2 hk
  · unfold isMRU
    rw [move_to_end_eq_of_lookup hl, List.getLast?_concat]
    rfl

/-- Witness for C4 on a concrete two-entry cache hit. -/
theorem cache_hit_no_factory_witness :
    ("u2net" ∈ KNOWN_MODELS ∧ lookup [("u2net", "h1"), ("sam", "h2")] "u2net" = some "h1") ∧
      (get_session 2 (fun _ => some "x") [("u2net", "h1"), ("sam", "h2")] "u2net"
          = ⟨.ok "h1", move_to_end [("u2net", "h1"), ("sam", "h2")] "u2net", 0⟩ ∧
        cacheKeys (move_to_end [("u2net", "h1"), ("sam", "h2")] "u2net")
            ⊆ cacheKeys [("u2net", "h1"), ("sam", "h2")] ∧
        cacheKeys [("u2net", "h1"), ("sam", "h2")]
            ⊆ cacheKeys (move_to_end [("u2net", "h1"), ("sam", "h2")] "u2net") ∧
        isMRU (move_to_end [("u2net", "h1"), ("sam", "h2")] "u2net") "u2net") :=
  ⟨⟨by decide, by decide⟩,
    cache_hit_no_factory 2 (fun _ => some "x") [("u2net", "h1"), ("sam", "h2")] "u2net" "h1"
      (by decide) (by decide)⟩

/-- C5: a factory failure on a miss propagates the creation error and
leaves the cache exactly as before the call, with no partial entry and
nothing evicted; a subsequent call for the same name calls the factory
again and, when it now succeeds, returns the fresh handle. -/
theorem factory_failure_leaves_cache {H : Type} (cap : Nat)
    (factory factory2 : String → Option H) (cache : Cache H) (m : String) (s : H)
    (hm : m ∈ KNOWN_MODELS) (hl : lookup cache m = none)
    (hf : factory m = none) (hf2 : factory2 m = some s) :
    get_session cap factory cache m = ⟨.error .creationFailed, cache, 1⟩ ∧
      (get_session cap factory2 (get_session cap factory cache m).cache m).factoryCalls = 1 ∧
      (get_session cap factory2 (get_session cap factory cache m).cache m).res = .ok s := by
  have h1 := get_session_miss_fail cap factory cache m hm hl hf
  have h2 : (get_session cap factory cache m).cache = cache := by rw [h1]
  refine ⟨h1, ?_, ?_⟩ <;>
    rw [h2, get_session_miss_success cap factory2 cache m s hm hl hf2]

/-- Witness for C5 with a failing then a succeeding factory on u2net. -/
theorem factory_failure_leaves_cache_witness :
    ("u2net" ∈ KNOWN_MODELS ∧ lookup [("sam", "h2")] "u2net" = none) ∧
      (get_session 1 (fun _ => (none : Option String)) [("sam", "h2")] "u2net"
          = ⟨.error .creationFailed, [("sam", "h2")], 1⟩ ∧
        (get_session 1 (fun _ => some "fresh")
            (get_session 1 (fun _ => (none : Option String)) [("sam", "h2")] "u2net").cache
            "u2net").factoryCalls = 1 ∧
        (get_session 1 (fun _ => some "fresh")
            (get_session 1 (fun _ => (none : Option String)) [("sam", "h2")] "u2net").cache
            "u2net").res = .ok "fresh") :=
  ⟨⟨by decide, by decide⟩,
    factory_failure_leaves_cache 1 (fun _ => none) (fun _ => some "fresh") [("sam", "h2")]
      "u2net" "fresh" (by decide) (by decide) rfl rfl⟩

/-- C6 counterexample: preloading the 16-name catalog with Capacity 1,
an empty starting cache and an always-succeeding factory makes 17
factory calls, not 16: the final re-issue of get_session for the
default model finds it already evicted (it is not the last catalog
entry) and creates it a second time. -/
theorem preload_factory_calls_counterexample :
    (preload_all_models "1" DEFAULT_MODEL 1 (fun n => some n) ([] : Cache String)).2
      ≠ KNOWN_MODELS.length := by decide

/-- C6 amended: preload over the catalog of N = 16 distinct names with
Capacity 1, from the empty cache and with every factory call
succeeding, makes exactly N + 1 factory calls — one per distinct name
plus a second creation of the default model during the final re-issue,
since the default had been evicted mid-pass — and leaves the default
model as the sole resident, most-recently-used entry. -/
theorem preload_capacity_one_result :
    preload_all_models "1" DEFAULT_MODEL 1 (fun n => some n) ([] : Cache String)
      = ([(DEFAULT_MODEL, DEFAULT_MODEL)], KNOWN_MODELS.length + 1) := by decide

/-- C10: the configured default model name is never validated against
the catalog: the models endpoint reports it unconditionally, so any
value outside KNOWN_MODELS is advertised as a default that is not a
member of the advertised list, and get_session on it fails with the
invalid-name error. -/
theorem default_model_unchecked {H : Type} (cap : Nat) (factory : String → Option H)
    (cache : Cache H) (d : String) (hd : d ∉ KNOWN_MODELS) :
    (models d).2 = d ∧ (models d).2 ∉ (models d).1 ∧
      get_session cap factory cache d = ⟨.error .invalidName, cache, 0⟩ :=
  ⟨rfl, hd, get_session_not_known cap factory cache d hd⟩

/-- Witness for C10 at a concrete non-catalog default. -/
theorem default_model_unchecked_witness :
    "not-a-model" ∉ KNOWN_MODELS ∧
      ((models "not-a-model").2 = "not-a-model" ∧
        (models "not-a-model").2 ∉ (models "not-a-model").1 ∧
        get_session 1 (fun _ => some "s") ([] : Cache String) "not-a-model"
          = ⟨.error .invalidName, [], 0⟩) :=
  ⟨by decide, default_model_unchecked 1 (fun _ => some "s") [] "not-a-model" (by decide)⟩

/-- C9: whenever get_session returns successfully and Capacity is at
least 1, the requested name is afterwards resident as the
most-recently-used entry and the returned handle equals the handle the
cache stores for it: the eviction loop removes from the
least-recently-used front and never evicts the entry just accessed or
inserted. -/
theorem success_model_resident {H : Type} (cap : Nat) (factory : String → Option H)
    (cache : Cache H) (m : String) (h : H) (hcap : 1 ≤ cap)
    (hres : (get_session cap factory cache m).res = .ok h) :
    isMRU (get_session cap factory cache m).cache m ∧
      lookup (get_session cap factory cache m).cache m = some h := by
  by_cases hm : m ∈ KNOWN_MODELS
  · rcases hl : lookup cache m with _ | v
    · rcases hf : factory m with _ | s
      · rw [get_session_miss_fail cap factory cache m hm hl hf] at hres
        exact Except.noConfusion hres
      · rw [get_session_miss_success cap factory cache m s hm hl hf] at hres ⊢
        dsimp only at hres ⊢
        obtain rfl : s = h := by injection hres with hsh
        have hlen : ((cache ++ [(m, s)]).length - cap) ≤ cache.length := by
          simp only [List.length_append, List.length_cons, List.length_nil]
          omega
        constructor
        · have hne : evictLoop cap (cache ++ [(m, s)]) ≠ [] := by
            rw [evictLoop_eq_drop]
            intro h0
            have hlen0 := congrArg List.length h0
            simp only [List.length_drop, List.length_append, List.length_cons,
              List.length_nil] at hlen0
            omega
          unfold isMRU
          rw [evictLoop_getLast? cap _ hne, List.getLast?_concat]
          rfl
        · rw [evictLoop_eq_drop, List.drop_append_of_le_length hlen]
          exact lookup_append_single_self
            (fun p hp => lookup_none_keys_ne hl p (List.mem_of_mem_drop hp))
    · rw [get_session_hit cap factory cache m v hm hl] at hres ⊢
      dsimp only at hres ⊢
      obtain rfl : v = h := by injection hres with hvh
      constructor
      · unfold isMRU
        rw [move_to_end_eq_of_lookup hl, List.getLast?_concat]
        rfl
      · rw [move_to_end_eq_of_lookup hl]
        exact lookup_append_single_self (eraseKey_keys_ne cache m)
  · rw [get_session_not_known cap factory cache m hm] at hres
    exact Except.noConfusion hres

/-- Witness for C9 on a successful miss into an empty cache. -/
theorem success_model_resident_witness :
    (1 ≤ 1 ∧ (get_session 1 (fun n => some n) ([] : Cache String) "u2net").res = .ok "u2net") ∧
      (isMRU (get_session 1 (fun n => some n) ([] : Cache String) "u2net").cache "u2net" ∧
        lookup (get_session 1 (fun n => some n) ([] : Cache String) "u2net").cache "u2net"
          = some "u2net") :=
  ⟨⟨by decide, rfl⟩,
    success_model_resident 1 (fun n => some n) [] "u2net" "u2net" (by decide) rfl⟩

/-- C7: after preload completes from the empty cache with the flag
enabled, if the cache holds an entry for the configured default name
then that entry is most-recently-used, for every capacity, every
default name, and every factory behaviour, so regardless of which
per-name preload steps failed. -/
theorem preload_default_mru {H : Type} (cap : Nat) (factory : String → Option H) (d : String)
    (hd : d ∈ cacheKeys (preload_all_models "1" d cap factory ([] : Cache H)).1) :
    isMRU (preload_all_models "1" d cap factory ([] : Cache H)).1 d := by
  have hpre : preload_all_models "1" d cap factory ([] : Cache H)
      = preloadStep cap factory
          (KNOWN_MODELS.foldl (preloadStep cap factory) (([] : Cache H), 0)) d := by
    unfold preload_all_models
    rw [if_pos rfl]
  set st := KNOWN_MODELS.foldl (preloadStep cap factory) (([] : Cache H), 0)
  have hkeys : ∀ k ∈ cacheKeys st.1, k ∈ KNOWN_MODELS := by
    have aux : ∀ (l : List String) (s : Cache H × Nat),
        (∀ k ∈ cacheKeys s.1, k ∈ KNOWN_MODELS) →
        ∀ k ∈ cacheKeys (l.foldl (preloadStep cap factory) s).1, k ∈ KNOWN_MODELS := by
      intro l
      induction l with
      | nil => intro s hs; exact hs
      | cons x xs ih =>
        intro s hs
        refine ih _ ?_
        intro k hk
        unfold preloadStep at hk
        dsimp only at hk
        rcases get_session_keys cap factory s.1 x k hk with h1 | ⟨rfl, h2⟩
        · exact hs k h1
        · exact h2
    exact aux KNOWN_MODELS ([], 0) (by intro k hk; simp [cacheKeys] at hk)
  rw [hpre] at hd ⊢
  unfold preloadStep at hd ⊢
  dsimp only at hd ⊢
  by_cases hdm : d ∈ KNOWN_MODELS
  · rcases hl : lookup st.1 d with _ | v
    · rcases hf : factory d with _ | s
      · rw [get_session_miss_fail cap factory st.1 d hdm hl hf] at hd
        dsimp only at hd
        exact absurd hd ((lookup_eq_none_iff st.1 d).1 hl)
      · rw [get_session_miss_success cap factory st.1 d s hdm hl hf] at hd ⊢
        dsimp only at hd ⊢
        have hne : evictLoop cap (st.1 ++ [(d, s)]) ≠ [] := by
          intro h0
          rw [h0] at hd
          simp [cacheKeys] at hd
        unfold isMRU
        rw [evictLoop_getLast? cap _ hne, List.getLast?_concat]
        rfl
    · rw [get_session_hit cap factory st.1 d v hdm hl]
      dsimp only
      unfold isMRU
      rw [move_to_end_eq_of_lookup hl, List.getLast?_concat]
      rfl
  · rw [get_session_not_known cap factory st.1 d hdm] at hd
    dsimp only at hd
    exact absurd (hkeys d hd) hdm

/-- Witness for C7 with Capacity 1, all factory calls succeeding and
the default value of DEFAULT_MODEL. -/
theorem preload_default_mru_witness :
    DEFAULT_MODEL
        ∈ cacheKeys (preload_all_models "1" DEFAULT_MODEL 1 (fun n => some n)
            ([] : Cache String)).1 ∧
      isMRU (preload_all_models "1" DEFAULT_MODEL 1 (fun n => some n)
          ([] : Cache String)).1 DEFAULT_MODEL :=
  ⟨by decide, preload_default_mru 1 (fun n => some n) DEFAULT_MODEL (by decide)⟩

end Bgaws
